import Mathlib

/-!
Verification of the voxel chunk storage engine of the `voxl` repository
(`src/src/vox/chunk.rs`): the dimension-descriptor addressing arithmetic,
chunk construction and indexing, the zero-copy reinterpretation
`new_accessor`, and the chunk-streaming load strategy.
-/

set_option autoImplicit false

namespace Voxl

/-- Dimension descriptor: the `Accessor` trait of `chunk.rs`.
`SIDE_LEN` is the fundamental constant; `QUAD_LEN` and `CUBE_LEN` are the
derived associated constants. -/
structure Accessor where
  sideLen : Nat
deriving DecidableEq

/-- `QUAD_LEN = SIDE_LEN * SIDE_LEN` (number of elements in a plane). -/
def Accessor.quadLen (D : Accessor) : Nat := D.sideLen * D.sideLen

/-- `CUBE_LEN = QUAD_LEN * SIDE_LEN` (number of elements in the cube). -/
def Accessor.cubeLen (D : Accessor) : Nat := D.quadLen * D.sideLen

/-- The `Data` descriptor of `chunk.rs`: `SIDE_LEN = 8`. -/
def Data : Accessor := ⟨8⟩

/-- `Chunk<D, T, N>`: a backing array of exactly `N` elements of `T`; the
descriptor `D` is phantom (`state: PhantomData<D>` carries no data). -/
structure Chunk (D : Accessor) (T : Type) (N : Nat) where
  data : Fin N → T

/-- The flat offset `y * D::QUAD_LEN + x + z * D::SIDE_LEN` computed by both
`Index` and `IndexMut` for `Chunk`. -/
def addr (D : Accessor) (y x z : Nat) : Nat :=
  y * D.quadLen + x + z * D.sideLen

/-- `Index<[usize; 3]> for Chunk`: `&self.data[y*QUAD_LEN + x + z*SIDE_LEN]`.
Rust array indexing panics exactly when the flat offset is `≥ N`; the panic
is modelled as `none`. -/
def Chunk.index {D : Accessor} {T : Type} {N : Nat}
    (c : Chunk D T N) (y x z : Nat) : Option T :=
  if h : addr D y x z < N then some (c.data ⟨addr D y x z, h⟩) else none

/-- `IndexMut<[usize; 3]> for Chunk`: writes through
`&mut self.data[y*QUAD_LEN + x + z*SIDE_LEN]`, panicking (`none`) exactly
when the flat offset is `≥ N`. -/
def Chunk.indexMut {D : Accessor} {T : Type} {N : Nat}
    (c : Chunk D T N) (y x z : Nat) (v : T) : Option (Chunk D T N) :=
  if _ : addr D y x z < N then
    some ⟨fun i => if i.val = addr D y x z then v else c.data i⟩
  else none

/-- `Default for Chunk`: `data: [T::default(); N]`, for any `N` (the source
imposes no relation between `N` and `D::CUBE_LEN`). -/
def Chunk.default (D : Accessor) (T : Type) [Inhabited T] (N : Nat) :
    Chunk D T N :=
  ⟨fun _ => Inhabited.default⟩

/-- `Chunk::new_accessor<A>`: consumes the chunk and rewraps the same backing
array under the descriptor `A`, unconditionally (no compatibility check). -/
def Chunk.new_accessor {D : Accessor} {T : Type} {N : Nat}
    (c : Chunk D T N) (A : Accessor) : Chunk A T N :=
  ⟨c.data⟩

/-! ### Addressing arithmetic -/

theorem sideLen_pos {D : Accessor} {x : Nat} (hx : x < D.sideLen) :
    0 < D.sideLen :=
  Nat.pos_of_ne_zero (fun h => by omega)

theorem plane_lt {D : Accessor} {x z : Nat}
    (hx : x < D.sideLen) (hz : z < D.sideLen) :
    x + z * D.sideLen < D.quadLen := by
  calc x + z * D.sideLen
      < D.sideLen + z * D.sideLen := Nat.add_lt_add_right hx _
    _ = (z + 1) * D.sideLen := by ring
    _ ≤ D.sideLen * D.sideLen :=
        Nat.mul_le_mul_right _ (Nat.succ_le_of_lt hz)
    _ = D.quadLen := rfl

theorem addr_lt_cubeLen {D : Accessor} {y x z : Nat}
    (hy : y < D.sideLen) (hx : x < D.sideLen) (hz : z < D.sideLen) :
    addr D y x z < D.cubeLen := by
  calc addr D y x z
      = y * D.quadLen + (x + z * D.sideLen) := by unfold addr; ring
    _ < y * D.quadLen + D.quadLen := Nat.add_lt_add_left (plane_lt hx hz) _
    _ = (y + 1) * D.quadLen := by ring
    _ ≤ D.sideLen * D.quadLen :=
        Nat.mul_le_mul_right _ (Nat.succ_le_of_lt hy)
    _ = D.cubeLen := by unfold Accessor.cubeLen; ring

theorem addr_div_quad {D : Accessor} {y x z : Nat}
    (hx : x < D.sideLen) (hz : z < D.sideLen) :
    addr D y x z / D.quadLen = y := by
  have hq : 0 < D.quadLen := Nat.mul_pos (sideLen_pos hx) (sideLen_pos hx)
  have e : addr D y x z = (x + z * D.sideLen) + D.quadLen * y := by
    unfold addr; ring
  rw [e, Nat.add_mul_div_left _ _ hq, Nat.div_eq_of_lt (plane_lt hx hz)]
  exact Nat.zero_add y

theorem addr_mod_quad {D : Accessor} {y x z : Nat}
    (hx : x < D.sideLen) (hz : z < D.sideLen) :
    addr D y x z % D.quadLen = x + z * D.sideLen := by
  have e : addr D y x z = (x + z * D.sideLen) + D.quadLen * y := by
    unfold addr; ring
  rw [e, Nat.add_mul_mod_self_left, Nat.mod_eq_of_lt (plane_lt hx hz)]

theorem addr_inj {D : Accessor} {y x z y' x' z' : Nat}
    (_hy : y < D.sideLen) (hx : x < D.sideLen) (hz : z < D.sideLen)
    (_hy' : y' < D.sideLen) (hx' : x' < D.sideLen) (hz' : z' < D.sideLen)
    (h : addr D y x z = addr D y' x' z') : y = y' ∧ x = x' ∧ z = z' := by
  have hL : 0 < D.sideLen := sideLen_pos hx
  have ey : y = y' := by
    have := congrArg (· / D.quadLen) h
    simpa [addr_div_quad hx hz, addr_div_quad hx' hz'] using this
  have eplane : x + z * D.sideLen = x' + z' * D.sideLen := by
    have := congrArg (· % D.quadLen) h
    simpa [addr_mod_quad hx hz, addr_mod_quad hx' hz'] using this
  have ex : x = x' := by
    have := congrArg (· % D.sideLen) eplane
    simpa [Nat.add_mul_mod_self_right, Nat.mod_eq_of_lt hx,
      Nat.mod_eq_of_lt hx'] using this
  have ez : z = z' := by
    have := congrArg (· / D.sideLen) eplane
    simpa [Nat.add_mul_div_right _ _ hL, Nat.div_eq_of_lt hx,
      Nat.div_eq_of_lt hx'] using this
  exact ⟨ey, ex, ez⟩

theorem addr_surj {D : Accessor} {i : Nat} (hi : i < D.cubeLen) :
    ∃ y x z, y < D.sideLen ∧ x < D.sideLen ∧ z < D.sideLen ∧
      addr D y x z = i := by
  have hL : 0 < D.sideLen := by
    rcases Nat.eq_zero_or_pos D.sideLen with h0 | h0
    · exfalso
      have : D.cubeLen = 0 := by
        unfold Accessor.cubeLen Accessor.quadLen
        rw [h0]
      omega
    · exact h0
  have hq : 0 < D.quadLen := Nat.mul_pos hL hL
  refine ⟨i / D.quadLen, (i % D.quadLen) % D.sideLen,
    (i % D.quadLen) / D.sideLen, ?_, ?_, ?_, ?_⟩
  · have hc : i < D.sideLen * D.quadLen := by
      have e : D.cubeLen = D.sideLen * D.quadLen := by
        unfold Accessor.cubeLen; ring
      omega
    exact (Nat.div_lt_iff_lt_mul hq).mpr hc
  · exact Nat.mod_lt _ hL
  · have hm : i % D.quadLen < D.sideLen * D.sideLen := Nat.mod_lt _ hq
    exact (Nat.div_lt_iff_lt_mul hL).mpr hm
  · have e : addr D (i / D.quadLen) (i % D.quadLen % D.sideLen)
        (i % D.quadLen / D.sideLen)
        = i / D.quadLen * D.quadLen +
          (i % D.quadLen % D.sideLen + i % D.quadLen / D.sideLen * D.sideLen) := by
      unfold addr; ring
    rw [e, Nat.mod_add_div', Nat.div_add_mod']

/-! ### Load strategy -/

/-- A chunk coordinate: an integer 3-vector on the world grid. -/
abbrev Coord : Type := Int × Int × Int

/-- `enum LoadStrat` of `chunk.rs`: `RuggedSphere { radius: usize }` or
`Cube { side: usize }`. -/
inductive LoadStrat where
  | ruggedSphere (radius : Nat)
  | cube (side : Nat)
deriving DecidableEq

/-- Squared Euclidean distance between two chunk coordinates (integer-vector
norm squared). -/
def dist2 (a b : Coord) : Int :=
  (a.1 - b.1) ^ 2 + (a.2.1 - b.2.1) ^ 2 + (a.2.2 - b.2.2) ^ 2

/-- Modelled from the spec: the repository defines only the `LoadStrat` enum;
the membership predicate `contains(strategy, center, candidate)` of the
streaming component is absent from `src`. Sphere membership is Euclidean
distance from `center` at most `radius` (for integer vectors, equivalently
squared distance at most `radius²`); Cube membership is each axis offset in
`[-(side-1)/2, (side-1)/2]`. -/
def LoadStrat.contains : LoadStrat → Coord → Coord → Bool
  | .ruggedSphere radius, c, p => dist2 c p ≤ (radius : Int) ^ 2
  | .cube side, c, p =>
      ((p.1 - c.1).natAbs ≤ (side - 1) / 2 ∧
       (p.2.1 - c.2.1).natAbs ≤ (side - 1) / 2 ∧
       (p.2.2 - c.2.2).natAbs ≤ (side - 1) / 2 : Prop)

/-- The integers from `lo` to `hi` inclusive, ascending. -/
def intRange (lo hi : Int) : List Int :=
  (List.range (hi + 1 - lo).toNat).map (fun k : Nat => lo + (k : Int))

/-- Half-width of the bounding box a strategy's members are drawn from. -/
def LoadStrat.halfWidth : LoadStrat → Int
  | .ruggedSphere radius => (radius : Int)
  | .cube side => ((side : Int) - 1) / 2

/-- Modelled from the spec: the enumeration
`members(strategy, center) -> sequence of ChunkCoordinate` is absent from
`src`. It enumerates the bounding box around `center` lexicographically by
`(y, x, z)` and keeps the coordinates satisfying `contains` (the spec's
distance-sorted order for spheres is not modelled; the claims checked here
concern only the resulting set). -/
def LoadStrat.members (s : LoadStrat) (c : Coord) : List Coord :=
  ((intRange (c.1 - s.halfWidth) (c.1 + s.halfWidth)).flatMap fun y =>
    (intRange (c.2.1 - s.halfWidth) (c.2.1 + s.halfWidth)).flatMap fun x =>
      (intRange (c.2.2 - s.halfWidth) (c.2.2 + s.halfWidth)).map fun z =>
        ((y, x, z) : Coord)).filter (fun p => s.contains c p)

theorem mem_intRange {lo hi a : Int} :
    a ∈ intRange lo hi ↔ lo ≤ a ∧ a ≤ hi := by
  unfold intRange
  simp only [List.mem_map, List.mem_range]
  constructor
  · rintro ⟨k, hk, rfl⟩
    omega
  · intro h
    exact ⟨(a - lo).toNat, by omega, by omega⟩

theorem sq_le_sq_int {a r : Int} (hr : 0 ≤ r) (h : a ^ 2 ≤ r ^ 2) :
    -r ≤ a ∧ a ≤ r := by
  constructor
  · nlinarith [sq_nonneg (a + r)]
  · nlinarith [sq_nonneg (a - r)]

theorem mem_members_sphere {radius : Nat} {c p : Coord} :
    p ∈ (LoadStrat.ruggedSphere radius).members c ↔
      dist2 c p ≤ (radius : Int) ^ 2 := by
  unfold LoadStrat.members
  rw [List.mem_filter]
  constructor
  · rintro ⟨-, hc⟩
    simpa [LoadStrat.contains] using hc
  · intro h
    refine ⟨?_, by simpa [LoadStrat.contains] using h⟩
    obtain ⟨py, px, pz⟩ := p
    have h1 : (py - c.1) ^ 2 ≤ ((radius : Int)) ^ 2 := by
      have := sq_nonneg (px - c.2.1)
      have := sq_nonneg (pz - c.2.2)
      simp only [dist2] at h
      nlinarith
    have h2 : (px - c.2.1) ^ 2 ≤ ((radius : Int)) ^ 2 := by
      have := sq_nonneg (py - c.1)
      have := sq_nonneg (pz - c.2.2)
      simp only [dist2] at h
      nlinarith
    have h3 : (pz - c.2.2) ^ 2 ≤ ((radius : Int)) ^ 2 := by
      have := sq_nonneg (py - c.1)
      have := sq_nonneg (px - c.2.1)
      simp only [dist2] at h
      nlinarith
    have b1 := sq_le_sq_int (by positivity) h1
    have b2 := sq_le_sq_int (by positivity) h2
    have b3 := sq_le_sq_int (by positivity) h3
    simp only [List.mem_flatMap, List.mem_map, LoadStrat.halfWidth]
    exact ⟨py, mem_intRange.mpr (by omega),
      px, mem_intRange.mpr (by omega),
      pz, mem_intRange.mpr (by omega), rfl⟩

/-! ### Claims -/

/-- C1: for every chunk and every coordinate triple `(y, x, z)`, the indexing
operation (read and write) accesses the backing array at flat offset
`y * plane_len + x + z * side_len` — `x` unscaled and `z` scaled by
`side_len`; in particular, for `side_len = 2`, writing `5` at
`(y=1, x=1, z=1)` stores it at flat index `7` and reading flat index `7`
yields `5`. -/
theorem C1_addressing_formula :
    (∀ (D : Accessor) (T : Type) (N : Nat) (c : Chunk D T N) (y x z : Nat)
        (h : y * D.quadLen + x + z * D.sideLen < N),
      c.index y x z =
        some (c.data ⟨y * D.quadLen + x + z * D.sideLen, h⟩) ∧
      ∀ v, (c.indexMut y x z v).map
          (fun c' => c'.data ⟨y * D.quadLen + x + z * D.sideLen, h⟩) =
        some v) ∧
    ((((Chunk.default ⟨2⟩ Nat 8).indexMut 1 1 1 5).map
        (fun c' => c'.data ⟨7, by omega⟩)) = some 5 ∧
      (((Chunk.default ⟨2⟩ Nat 8).indexMut 1 1 1 5).bind
        (fun c' => c'.index 1 1 1)) = some 5) := by
  refine ⟨fun D T N c y x z h => ?_, by decide, by decide⟩
  have h' : addr D y x z < N := h
  refine ⟨dif_pos h', fun v => ?_⟩
  simp [Chunk.indexMut, addr, h]

/-- C1 witness: the general addressing formula instantiated at `side_len = 2`,
`N = 8`, coordinate `(1, 1, 1)` (flat offset `7`). -/
theorem C1_addressing_formula_witness :
    (Chunk.default ⟨2⟩ Nat 8).index 1 1 1 =
      some ((Chunk.default ⟨2⟩ Nat 8).data ⟨7, by omega⟩) :=
  (C1_addressing_formula.1 ⟨2⟩ Nat 8 (Chunk.default ⟨2⟩ Nat 8) 1 1 1
    (by decide)).1

/-- C2: for every descriptor, the addressing function restricted to triples
with each component `< side_len` is injective, lands in `[0, side_len³)`, and
covers all of `[0, side_len³)`. -/
theorem C2_addr_bijection :
    ∀ D : Accessor,
      (∀ y x z y' x' z', y < D.sideLen → x < D.sideLen → z < D.sideLen →
          y' < D.sideLen → x' < D.sideLen → z' < D.sideLen →
          addr D y x z = addr D y' x' z' → y = y' ∧ x = x' ∧ z = z') ∧
      (∀ y x z, y < D.sideLen → x < D.sideLen → z < D.sideLen →
          addr D y x z < D.cubeLen) ∧
      (∀ i, i < D.cubeLen →
          ∃ y x z, y < D.sideLen ∧ x < D.sideLen ∧ z < D.sideLen ∧
            addr D y x z = i) :=
  fun _ =>
    ⟨fun _ _ _ _ _ _ hy hx hz hy' hx' hz' h =>
        addr_inj hy hx hz hy' hx' hz' h,
      fun _ _ _ hy hx hz => addr_lt_cubeLen hy hx hz,
      fun _ hi => addr_surj hi⟩

/-- C2 witness: the bijection properties instantiated at `side_len = 2`:
`(1,1,1)` maps below `volume_len = 8`, and flat index `7` is covered. -/
theorem C2_addr_bijection_witness :
    addr ⟨2⟩ 1 1 1 < Accessor.cubeLen ⟨2⟩ ∧
    ∃ y x z, y < (2 : Nat) ∧ x < 2 ∧ z < 2 ∧ addr ⟨2⟩ y x z = 7 :=
  ⟨(C2_addr_bijection ⟨2⟩).2.1 1 1 1 (by decide) (by decide) (by decide),
    (C2_addr_bijection ⟨2⟩).2.2 7 (by decide)⟩

/-- C5: for every descriptor, element type and capacity `N`, the default
chunk has every one of its `N` slots equal to the element default. -/
theorem C5_default_fill (D : Accessor) (T : Type) [Inhabited T] (N : Nat)
    (i : Fin N) :
    (Chunk.default D T N).data i = Inhabited.default :=
  rfl

/-- C3 counterexample: with `side_len = 8` and `N = 512`, indexing the
coordinate `(0, 9, 0)` — whose component `9` is `≥ side_len` — does not fail:
after writing `77` at the in-range coordinate `(0, 1, 1)` (flat offset `9`),
reading `(0, 9, 0)` silently returns that same slot's value `77`. -/
theorem C3_counterexample :
    Data.sideLen ≤ 9 ∧
    (((Chunk.default Data Nat 512).indexMut 0 1 1 77).bind
      (fun c' => c'.index 0 9 0)) = some 77 := by
  decide

/-- C3 (amended): indexing a chunk fails exactly when the computed flat
offset `y*plane_len + x + z*side_len` is `≥ N` — a component `≥ side_len`
does not by itself cause a failure; with all components `< side_len` and
`N = volume_len`, indexing never fails. -/
theorem C3_index_failure_iff :
    ∀ (D : Accessor) (T : Type) (N : Nat) (c : Chunk D T N) (y x z : Nat),
      (c.index y x z = none ↔ N ≤ addr D y x z) ∧
      (y < D.sideLen → x < D.sideLen → z < D.sideLen → N = D.cubeLen →
        ∃ v, c.index y x z = some v) := by
  intro D T N c y x z
  constructor
  · unfold Chunk.index
    by_cases h : addr D y x z < N
    · rw [dif_pos h]
      simp only [reduceCtorEq, false_iff]
      exact Nat.not_le.mpr h
    · rw [dif_neg h]
      simp only [true_iff]
      exact Nat.not_lt.mp h
  · intro hy hx hz hN
    have h : addr D y x z < N := hN ▸ addr_lt_cubeLen hy hx hz
    exact ⟨_, dif_pos h⟩

/-- C3 witness: the amended statement instantiated at `side_len = 8`,
`N = 512`: the failure condition at `(0, 600, 0)`, and success at the
in-range coordinate `(7, 7, 7)`. -/
theorem C3_index_failure_iff_witness :
    ((Chunk.default Data Nat 512).index 0 600 0 = none ↔
      512 ≤ addr Data 0 600 0) ∧
    ∃ v, (Chunk.default Data Nat 512).index 7 7 7 = some v :=
  ⟨(C3_index_failure_iff Data Nat 512 (Chunk.default Data Nat 512)
      0 600 0).1,
    (C3_index_failure_iff Data Nat 512 (Chunk.default Data Nat 512)
      7 7 7).2 (by decide) (by decide) (by decide) (by decide)⟩

/-- C4: for every chunk with `N = volume_len`, every coordinate triple with
each component `< side_len` and every value `v`, writing `v` there and
reading the same coordinate returns `v`, and every slot at a different flat
index is unchanged. -/
theorem C4_round_trip :
    ∀ (D : Accessor) (T : Type) (N : Nat) (c : Chunk D T N) (y x z : Nat)
      (v : T), y < D.sideLen → x < D.sideLen → z < D.sideLen →
      N = D.cubeLen →
      ∃ c', c.indexMut y x z v = some c' ∧
        c'.index y x z = some v ∧
        ∀ i : Fin N, i.val ≠ addr D y x z → c'.data i = c.data i := by
  intro D T N c y x z v hy hx hz hN
  have h : addr D y x z < N := hN ▸ addr_lt_cubeLen hy hx hz
  refine ⟨⟨fun i => if i.val = addr D y x z then v else c.data i⟩,
    dif_pos h, ?_, ?_⟩
  · show Chunk.index _ y x z = some v
    unfold Chunk.index
    rw [dif_pos h]
    simp
  · intro i hi
    show (if i.val = addr D y x z then v else c.data i) = c.data i
    rw [if_neg hi]

/-- C4 witness: the round trip at `side_len = 2`, `N = 8`, writing `5` at
`(1, 1, 1)`. -/
theorem C4_round_trip_witness :
    ∃ c', (Chunk.default ⟨2⟩ Nat 8).indexMut 1 1 1 5 = some c' ∧
      c'.index 1 1 1 = some 5 ∧
      ∀ i : Fin 8, i.val ≠ addr ⟨2⟩ 1 1 1 →
        c'.data i = (Chunk.default ⟨2⟩ Nat 8).data i :=
  C4_round_trip ⟨2⟩ Nat 8 (Chunk.default ⟨2⟩ Nat 8) 1 1 1 5
    (by decide) (by decide) (by decide) (by decide)

/-- C10: indexing succeeds whenever the computed flat offset is `< N`, even
when a component is `≥ side_len`, and accesses exactly the slot that offset
names; the failure branch is reached exactly when the offset is `≥ N`. With
`side_len = 8` and `N = 512`, a write through the out-of-range coordinate
`(0, 9, 0)` is read back at the in-range alias `(0, 1, 1)`. -/
theorem C10_flat_offset_gates_failure :
    (∀ (D : Accessor) (T : Type) (N : Nat) (c : Chunk D T N) (y x z : Nat)
        (h : addr D y x z < N),
      c.index y x z = some (c.data ⟨addr D y x z, h⟩)) ∧
    (∀ (D : Accessor) (T : Type) (N : Nat) (c : Chunk D T N) (y x z : Nat),
        N ≤ addr D y x z → c.index y x z = none) ∧
    (Data.sideLen ≤ 9 ∧
      (((Chunk.default Data Nat 512).indexMut 0 9 0 42).bind
        (fun c' => c'.index 0 1 1)) = some 42) := by
  refine ⟨fun D T N c y x z h => dif_pos h,
    fun D T N c y x z h => dif_neg (Nat.not_lt.mpr h), by decide⟩

/-- C10 witness: at `side_len = 8`, `N = 512`, the coordinate `(0, 9, 0)`
(offset `9 < 512`) succeeds despite `9 ≥ side_len`, and `(64, 0, 0)`
(offset `4096 ≥ 512`) fails. -/
theorem C10_flat_offset_gates_failure_witness :
    (Chunk.default Data Nat 512).index 0 9 0 =
      some ((Chunk.default Data Nat 512).data ⟨9, by omega⟩) ∧
    (Chunk.default Data Nat 512).index 64 0 0 = none :=
  ⟨C10_flat_offset_gates_failure.1 Data Nat 512
      (Chunk.default Data Nat 512) 0 9 0 (by decide),
    C10_flat_offset_gates_failure.2.1 Data Nat 512
      (Chunk.default Data Nat 512) 64 0 0 (by decide)⟩

/-- C6 counterexample: construction imposes no relation between `N` and the
descriptor's `volume_len` — with the `Data` descriptor (`volume_len = 512`),
a chunk with backing length `N = 5` is obtained from the provided
constructor and is fully usable. -/
theorem C6_counterexample :
    Data.cubeLen ≠ 5 ∧ (Chunk.default Data Nat 5).index 0 1 0 = some 0 := by
  decide

/-- C6 (amended): construction does not validate `N` against `volume_len`:
for every `N`, including `N ≠ volume_len`, `Chunk::default` yields a chunk
whose every slot is the element default; the mismatch is not rejected at
construction and surfaces only as a later indexing failure. -/
theorem C6_no_construction_validation :
    ∀ (D : Accessor) (T : Type) [Inhabited T] (N : Nat), N ≠ D.cubeLen →
      ∀ i : Fin N, (Chunk.default D T N).data i = Inhabited.default := by
  intro D T _ N _ i
  rfl

/-- C6 witness: a default chunk with `N = 5` under the `Data` descriptor
(`volume_len = 512`). -/
theorem C6_no_construction_validation_witness :
    (Chunk.default Data Nat 5).data ⟨2, by omega⟩ = Inhabited.default :=
  C6_no_construction_validation Data Nat 5 (by decide) ⟨2, by omega⟩

/-- C7 counterexample: `new_accessor` performs the reinterpretation silently
even when the target descriptor's `volume_len` differs from the current
one: retargeting a `Data` chunk (`volume_len = 512`) to a descriptor of side
length `1` (`volume_len = 1`) succeeds and leaves the backing elements in
place. -/
theorem C7_counterexample :
    Accessor.cubeLen ⟨1⟩ ≠ Data.cubeLen ∧
    (((Chunk.default Data Nat 512).indexMut 0 0 0 9).map
      (fun c1 => (c1.new_accessor ⟨1⟩).data ⟨0, by omega⟩)) = some 9 := by
  decide

/-- C7 (amended): `new_accessor` is unconditional — the type only forces the
backing length `N` to be preserved; a target descriptor whose `volume_len`
differs from the current one is not rejected, and the reinterpretation is
performed with the backing elements unchanged. -/
theorem C7_no_compat_check :
    ∀ (D A : Accessor) (T : Type) (N : Nat) (c : Chunk D T N),
      A.cubeLen ≠ D.cubeLen →
      ∀ i : Fin N, (c.new_accessor A).data i = c.data i := by
  intro D A T N c _ i
  rfl

/-- C7 witness: retargeting a `Data` chunk (`volume_len = 512`) to a
side-length-1 descriptor (`volume_len = 1`). -/
theorem C7_no_compat_check_witness :
    ((Chunk.default Data Nat 512).new_accessor ⟨1⟩).data ⟨3, by omega⟩ =
      (Chunk.default Data Nat 512).data ⟨3, by omega⟩ :=
  C7_no_compat_check Data ⟨1⟩ Nat 512 (Chunk.default Data Nat 512)
    (by decide) ⟨3, by omega⟩

/-- C8: for descriptors `D`, `A` of equal `volume_len` equal to `N`,
`new_accessor` consumes the chunk and yields one whose element at every flat
index `i < N` is identical to the original's — the same backing elements,
with nothing copied, reordered, or re-laid-out. -/
theorem C8_reinterpretation_preserves :
    ∀ (D A : Accessor) (T : Type) (N : Nat) (c : Chunk D T N),
      D.cubeLen = N → A.cubeLen = N →
      ∀ i : Fin N, (c.new_accessor A).data i = c.data i := by
  intro D A T N c _ _ i
  rfl

/-- C8 witness: reinterpretation at `side_len = 2`, `N = 8`, flat index 7. -/
theorem C8_reinterpretation_preserves_witness :
    ((Chunk.default ⟨2⟩ Nat 8).new_accessor ⟨2⟩).data ⟨7, by omega⟩ =
      (Chunk.default ⟨2⟩ Nat 8).data ⟨7, by omega⟩ :=
  C8_reinterpretation_preserves ⟨2⟩ ⟨2⟩ Nat 8 (Chunk.default ⟨2⟩ Nat 8)
    (by decide) (by decide) ⟨7, by omega⟩

/-- C9: the Sphere strategy's membership is exactly the set of integer
coordinates at Euclidean distance ≤ radius from the center (for integer
vectors: squared distance ≤ radius²); at radius 1 centered at the origin the
enumeration yields exactly 7 coordinates — the center and its six
axis-adjacent neighbors — excluding all diagonal neighbors. -/
theorem C9_sphere_members :
    ((LoadStrat.ruggedSphere 1).members (0, 0, 0) =
        [(-1, 0, 0), (0, -1, 0), (0, 0, -1), (0, 0, 0), (0, 0, 1),
          (0, 1, 0), (1, 0, 0)] ∧
      ((LoadStrat.ruggedSphere 1).members (0, 0, 0)).length = 7) ∧
    (∀ (radius : Nat) (c p : Coord),
      p ∈ (LoadStrat.ruggedSphere radius).members c ↔
        dist2 c p ≤ (radius : Int) ^ 2) :=
  ⟨⟨by decide, by decide⟩, fun _ _ _ => mem_members_sphere⟩

end Voxl
